import Mathlib

/-!
# nyrna: configuration store and notifier

A shallow embedding of `config.go` (`ConfigLoad`, `ConfigWrite`) and `notify.go`
(`NotifySuspend`, `NotifyResume`, `NotifyHotkeyFailure`).

Both files are glue over libraries, so the embedding has two layers.

* The environment: the process-wide registry of `github.com/spf13/viper`, the paths
  of `path/filepath` (Unix), the file system viper reads and writes, `fmt.Sprintf` with
  the `%v` verb, and the answer of `beeep.Notify`.  These are modelled from the
  libraries' behaviour, as state passing.
* The program: one Lean function per Go function, statement by statement.

Effects that a Go caller can observe only from outside the process (a desktop
notification, a log line, a call of the error handler `Check`) are recorded, in order,
in a list of `Event`s.
-/

namespace Nyrna

/-! ## Values and settings maps -/

/-- A value held under a configuration key.  `str` is a Go string (what `viper.Set` is
given here, and what a JSON string decodes to), `null` is a JSON `null` (Go `nil`), and
`other` stands for every remaining JSON value (boolean, number, array, object), carried
with the text `cast.ToString` renders it to (the empty text for arrays and objects). -/
inductive Value where
  | str (s : String)
  | null
  | other (shown : String)
deriving DecidableEq, Repr

/-- A `map[string]interface{}` with the keys in the lower case viper normalises them to. -/
abbrev Settings := List (String × Value)

/-- Go map indexing `m[key]`. -/
def Settings.get : Settings → String → Option Value
  | [], _ => none
  | (k, v) :: rest, key => if k = key then some v else Settings.get rest key

/-- Go map assignment `m[key] = v`. -/
def Settings.set (m : Settings) (key : String) (v : Value) : Settings :=
  (key, v) :: m.filter (fun kv => decide (kv.1 ≠ key))

/-- The keys of a map. -/
def Settings.keys (m : Settings) : List String := m.map Prod.fst

/-- The `searchMap` of viper for a key without a delimiter: the value stored under the key,
`nil` (here `none`) both when the key is missing and when it holds `nil`. -/
def searchMap (source : Settings) (key : String) : Option Value :=
  match source.get key with
  | some Value.null => none
  | r => r

/-- The `cast.ToString` of viper's `GetString`: a string is returned as it is, `nil` and
values that have no string form give the empty string. -/
def cast_ToString : Option Value → String
  | some (Value.str s) => s
  | some (Value.other shown) => shown
  | some Value.null => ""
  | none => ""

/-! ## Paths: `path/filepath` on Unix -/

/-- The pieces of a path between its separators, as `strings.Split(path, "/")` gives
them: the empty piece stands for a leading, trailing or doubled separator. -/
def splitSlash : List Char → List (List Char)
  | [] => [[]]
  | c :: cs =>
    if c = '/' then [] :: splitSlash cs
    else (c :: (splitSlash cs).headD []) :: (splitSlash cs).tail

/-- The elements of a path that `filepath.Clean` looks at: the pieces other than the
empty one and `.`. -/
def pathElements (p : List Char) : List (List Char) :=
  (splitSlash p).filter (fun e => decide (e ≠ [] ∧ e ≠ ['.']))

/-- One step of `filepath.Clean` on the elements kept so far (last one first): `..` drops
the element before it, is dropped itself at the root, and is kept in front of a
relative path; any other element is kept. -/
def cleanStep (rooted : Bool) (stack : List (List Char)) (e : List Char) : List (List Char) :=
  if e = ['.', '.'] then
    match stack with
    | top :: rest => if top = ['.', '.'] then e :: stack else rest
    | [] => if rooted then [] else [e]
  else e :: stack

/-- The elements `filepath.Clean` keeps, in order. -/
def cleanElements (rooted : Bool) (es : List (List Char)) : List (List Char) :=
  (es.foldl (cleanStep rooted) []).reverse

/-- Elements joined by single separators. -/
def joinSlash : List (List Char) → List Char
  | [] => []
  | [e] => e
  | e :: e2 :: es => e ++ '/' :: joinSlash (e2 :: es)

/-- The `filepath.Clean` on characters: "" gives ".", a rooted path keeps its leading
separator, separators are single, there is none at the end, `.` and inner `..` elements
are removed. -/
def cleanChars (p : List Char) : List Char :=
  if p = [] then ['.']
  else
    let rooted := decide (p.head? = some '/')
    let kept := cleanElements rooted (pathElements p)
    if rooted then '/' :: joinSlash kept
    else if kept = [] then ['.'] else joinSlash kept

/-- Go: `filepath.Clean(path)`. -/
def filepath_Clean (path : String) : String := String.mk (cleanChars path.data)

/-- Go: `filepath.IsAbs(path)`: the path starts with the separator. -/
def filepath_IsAbs (path : String) : Bool := decide (path.data.head? = some '/')

/-- Go: `filepath.Join(dir, file)`: the non-empty arguments, joined by the separator and
cleaned; "" when both are empty. -/
def filepath_Join (dir file : String) : String :=
  if dir = "" then (if file = "" then "" else filepath_Clean file)
  else if file = "" then filepath_Clean dir
  else filepath_Clean (dir ++ "/" ++ file)

/-- The scan of `filepath.Ext`, from the last character backwards: stop at a separator,
return the suffix from the last dot of the final element. -/
def extScan : List Char → List Char → List Char
  | [], _ => []
  | c :: rest, acc =>
    if c = '/' then [] else if c = '.' then '.' :: acc else extScan rest (c :: acc)

/-- The `filepath.Ext`: the extension of the final path element, dot included, or "". -/
def filepath_Ext (path : String) : String := String.mk (extScan path.data.reverse [])

/-! ## The file system and the environment of the process -/

/-- What a read of a file gives: an error (`denied`: permissions, I/O), bytes that do not
decode as a JSON object (`malformed`), or the JSON object they decode to. -/
inductive FileState where
  | denied
  | malformed
  | object (doc : Settings)
deriving DecidableEq, Repr

/-- The operating system as the process sees it.  `files` says which files exist and
what reading them gives, by the absolute clean name of the file; `mayWrite` says for
which of these names creating or truncating the file for writing succeeds (it does not
when the directory is missing or not writable); `cwd` is the working directory;
`expandEnv` is what viper's expansion of `$HOME` and `$VAR` makes of a path that holds
a `$`, which depends on the environment variables (and on the release of viper). -/
structure FS where
  files : String → Option FileState
  mayWrite : String → Bool
  cwd : String
  expandEnv : String → String

/-- The file a name leads to when the process opens or stats it: a relative name is
taken from the working directory, and doubled separators, `.` elements and a separator
at the end do not matter.  For names without `..` elements this is what the system
does; through a `..` it would follow symbolic links, which are not modelled. -/
def FS.resolve (fs : FS) (name : String) : String :=
  filepath_Clean (if filepath_IsAbs name then name else fs.cwd ++ "/" ++ name)

/-- What the system finds under a name. -/
def FS.lookup (fs : FS) (name : String) : Option FileState := fs.files (fs.resolve name)

/-- The file system after `name` has been created or overwritten with the document `doc`. -/
def FS.put (fs : FS) (name : String) (doc : Settings) : FS :=
  { fs with
    files := fun p => if p = fs.resolve name then some (FileState.object doc) else fs.files p }

/-- The `exists` helper of viper: a stat of the name succeeds. -/
def FS.exists (fs : FS) (name : String) : Bool := (fs.lookup name).isSome

/-- Go: `filepath.Abs(path)`: an absolute path cleaned, a relative one joined to the
working directory. -/
def filepath_Abs (fs : FS) (path : String) : String :=
  if filepath_IsAbs path then filepath_Clean path else filepath_Join fs.cwd path

/-- The `absPathify` of viper: expand `$HOME` and `$VAR`, then make the path absolute and
clean it. -/
def absPathify (fs : FS) (inPath : String) : String :=
  let p := if '$' ∈ inPath.data then fs.expandEnv inPath else inPath
  if filepath_IsAbs p then filepath_Clean p else filepath_Clean (filepath_Abs fs p)

/-! ## The viper registry -/

/-- The errors viper's read and write return.  The first two and `ConfigParseError` are
viper's own types; `ReadFileError` and `OpenFileError` stand for the error of the
operating system when the file cannot be read or opened for writing, and
`InvalidExtensionError` for the error of a file name without an extension. -/
inductive ViperError where
  | ConfigFileNotFoundError (name : String) (locations : List String)
  | UnsupportedConfigError (configType : String)
  | ReadFileError (file : String)
  | ConfigParseError (file : String)
  | InvalidExtensionError (file : String)
  | OpenFileError (file : String)
deriving DecidableEq, Repr

/-- The extensions viper supports (`viper.SupportedExts`, as of viper 1.7), in the order
`searchInPath` tries them; "json" is the first in every release. -/
def SupportedExts : List String :=
  ["json", "toml", "yaml", "yml", "properties", "props", "prop", "hcl", "dotenv", "env", "ini"]

/-- The process-wide viper registry, with the fields this program reaches: the three
layers a key is looked up in (`override` from `Set`, `config` from the file read last,
`defaults` from `SetDefault`) and where the config file is searched.  Flags, environment
bindings, aliases and remote stores are never set by the program and are left out. -/
structure Viper where
  configName : String
  configType : String
  configPaths : List String
  configFile : String
  config : Settings
  override : Settings
  defaults : Settings
deriving Repr

/-- The registry of a fresh process, `viper.New()`. -/
def Viper.New : Viper :=
  { configName := "config", configType := "", configPaths := [], configFile := "",
    config := [], override := [], defaults := [] }

/-- Go: `viper.SetConfigName(in)`; a new name also forgets the file found earlier. -/
def Viper.SetConfigName (v : Viper) (name : String) : Viper :=
  if name ≠ "" then { v with configName := name, configFile := "" } else v

/-- Go: `viper.SetConfigType(in)`. -/
def Viper.SetConfigType (v : Viper) (t : String) : Viper :=
  if t ≠ "" then { v with configType := t } else v

/-- Go: `viper.AddConfigPath(in)`: the empty path is ignored, a path already present is
not added twice. -/
def Viper.AddConfigPath (v : Viper) (fs : FS) (inPath : String) : Viper :=
  if inPath ≠ "" then
    let absin := absPathify fs inPath
    if absin ∈ v.configPaths then v else { v with configPaths := v.configPaths ++ [absin] }
  else v

/-- Go: `viper.SetDefault(key, value)`. -/
def Viper.SetDefault (v : Viper) (key : String) (value : Value) : Viper :=
  { v with defaults := v.defaults.set key value }

/-- Go: `viper.Set(key, value)`. -/
def Viper.Set (v : Viper) (key : String) (value : Value) : Viper :=
  { v with override := v.override.set key value }

/-- The `find` of viper for a key without a delimiter: the override first, then the
config file, then the defaults; a layer answers only with a non-nil value. -/
def Viper.find (v : Viper) (key : String) : Option Value :=
  match searchMap v.override key with
  | some val => some val
  | none =>
    match searchMap v.config key with
    | some val => some val
    | none => searchMap v.defaults key

/-- Go: `viper.GetString(key)`. -/
def Viper.GetString (v : Viper) (key : String) : String := cast_ToString (v.find key)

/-- Go: `viper.AllKeys()`: every key of every layer, once. -/
def Viper.AllKeys (v : Viper) : List String :=
  (v.override.keys ++ v.config.keys ++ v.defaults.keys).dedup

/-- Go: `viper.AllSettings()`: every key that resolves to a value, with that value. -/
def Viper.AllSettings (v : Viper) : Settings :=
  v.AllKeys.filterMap (fun k => (v.find k).map (fun val => (k, val)))

/-- The `searchInPath` of viper: the first `<name>.<ext>` that exists in the directory,
else the bare name when a config type is set, else "". -/
def Viper.searchInPath (v : Viper) (fs : FS) (dir : String) : String :=
  match SupportedExts.find? (fun ext => fs.exists (filepath_Join dir (v.configName ++ "." ++ ext))) with
  | some ext => filepath_Join dir (v.configName ++ "." ++ ext)
  | none =>
    if v.configType ≠ "" ∧ fs.exists (filepath_Join dir v.configName) = true then
      filepath_Join dir v.configName
    else ""

/-- The `findConfigFile` of viper: the first search path that holds a config file. -/
def Viper.findConfigFile (v : Viper) (fs : FS) : Except ViperError String :=
  match (v.configPaths.map (v.searchInPath fs)).find? (fun file => decide (file ≠ "")) with
  | some file => Except.ok file
  | none => Except.error (ViperError.ConfigFileNotFoundError v.configName v.configPaths)

/-- The `getConfigFile` of viper: the file found earlier if any, else a search whose
result is remembered. -/
def Viper.getConfigFile (v : Viper) (fs : FS) : Except ViperError String × Viper :=
  if v.configFile = "" then
    match v.findConfigFile fs with
    | Except.error e => (Except.error e, v)
    | Except.ok cf => (Except.ok cf, { v with configFile := cf })
  else (Except.ok v.configFile, v)

/-- The `getConfigType` of viper: the type set, else the extension of the config file. -/
def Viper.getConfigType (v : Viper) (fs : FS) : String :=
  if v.configType ≠ "" then v.configType
  else
    match (v.getConfigFile fs).1 with
    | Except.error _ => ""
    | Except.ok cf => (filepath_Ext cf).drop 1

/-- The decoding step of `ReadInConfig` for the JSON type: the object read, or an error. -/
def readFile (fs : FS) (file : String) : Except ViperError Settings :=
  match fs.lookup file with
  | none => Except.error (ViperError.ReadFileError file)
  | some FileState.denied => Except.error (ViperError.ReadFileError file)
  | some FileState.malformed => Except.error (ViperError.ConfigParseError file)
  | some (FileState.object doc) => Except.ok doc

/-- Go: `viper.ReadInConfig()`: find the file, read and decode it, and only then replace
the config layer.  Returns the error (`none` for `nil`) and the registry afterwards. -/
def Viper.ReadInConfig (v : Viper) (fs : FS) : Option ViperError × Viper :=
  match v.getConfigFile fs with
  | (Except.error e, v1) => (some e, v1)
  | (Except.ok filename, v1) =>
    if v1.getConfigType fs ∉ SupportedExts then
      (some (ViperError.UnsupportedConfigError (v1.getConfigType fs)), v1)
    else
      match readFile fs filename with
      | Except.error e => (some e, v1)
      | Except.ok config => (none, { v1 with config := config })

/-- Go: `viper.WriteConfigAs(filename)`: the extension must name a supported type, the
file is created or truncated, and all settings are written to it.  Returns the error
(`none` for `nil`) and the file system afterwards. -/
def Viper.WriteConfigAs (v : Viper) (fs : FS) (filename : String) : Option ViperError × FS :=
  let ext := filepath_Ext filename
  if ext.length ≤ 1 then (some (ViperError.InvalidExtensionError filename), fs)
  else if ext.drop 1 ∉ SupportedExts then (some (ViperError.UnsupportedConfigError (ext.drop 1)), fs)
  else if fs.mayWrite (fs.resolve filename) = false then
    (some (ViperError.OpenFileError filename), fs)
  else (none, fs.put filename v.AllSettings)

/-! ## The program: `config.go` -/

/-- An effect of the program that is visible outside it, in the order it happens. -/
inductive Event where
  | notified (title message appIcon : String)
  | logged (line : String)
  | checked (err : ViperError)
deriving DecidableEq, Repr

/-- What a call does to the control flow of its caller: it returns, or it ends the
process (as `log.Fatal` and `os.Exit` do). -/
inductive Flow where
  | returns
  | exits
deriving DecidableEq, Repr

/-- Modelled from the spec: `Check`, the error handler `ConfigLoad` calls, is declared
outside the two source files.  The spec describes it as a fatal error handler: handed
the error of a failed read it terminates the process. -/
def Check (_err : ViperError) : Flow := Flow.exits

/-- The state a call runs in: the viper registry of the process, the file system, and the
events so far. -/
structure World where
  viper : Viper
  fs : FS
  events : List Event

/-- The registry `ConfigLoad` reads with: name, type, search path and default set. -/
def loadSetup (fs : FS) (ConfigFilePath : String) (v : Viper) : Viper :=
  (((v.SetConfigName "nyrna_config").SetConfigType "json").AddConfigPath fs
    ConfigFilePath).SetDefault "hotkey" (Value.str "Pause")

/-- Go: `func ConfigLoad() (hotkey string)`.  The package variable `ConfigFilePath` and the
handler `Check`, both declared outside the two files, are parameters.  The result is the
world afterwards and the hotkey returned, `none` when the process ended inside `Check`. -/
def ConfigLoad (check : ViperError → Flow) (ConfigFilePath : String) (w : World) :
    World × Option String :=
  let v := w.viper.SetConfigName "nyrna_config"
  let v := v.SetConfigType "json"
  let v := v.AddConfigPath w.fs ConfigFilePath
  let v := v.SetDefault "hotkey" (Value.str "Pause")
  let (err, v) := v.ReadInConfig w.fs
  let finish (events : List Event) : World × Option String :=
    let hotkey := v.GetString "hotkey"
    ({ viper := v, fs := w.fs, events := events ++ [Event.logged ("Hotkey is: " ++ hotkey)] },
      some hotkey)
  match err with
  | some e =>
    match check e with
    | Flow.exits => ({ viper := v, fs := w.fs, events := w.events ++ [Event.checked e] }, none)
    | Flow.returns => finish (w.events ++ [Event.checked e])
  | none => finish w.events

/-- Go: `func ConfigWrite(newHotkey string)`.  The error `viper.WriteConfigAs` returns is
dropped, as in the source. -/
def ConfigWrite (ConfigFilePath : String) (newHotkey : String) (w : World) : World :=
  let v := w.viper.Set "hotkey" (Value.str newHotkey)
  let configFile := ConfigFilePath ++ "/nyrna_config.json"
  let (_, fs) := v.WriteConfigAs w.fs configFile
  { viper := v, fs := fs, events := w.events }

/-- Go: `func ConfigRead()`, whose body is empty. -/
def ConfigRead (w : World) : World := w

/-- The error of the read inside `ConfigLoad`, `none` when the read succeeds. -/
def loadReadError (ConfigFilePath : String) (w : World) : Option ViperError :=
  ((loadSetup w.fs ConfigFilePath w.viper).ReadInConfig w.fs).1

/-- The error `viper.WriteConfigAs` hands back inside `ConfigWrite`, which the function
drops; `none` when the write succeeds. -/
def writeError (ConfigFilePath : String) (newHotkey : String) (w : World) : Option ViperError :=
  ((w.viper.Set "hotkey" (Value.str newHotkey)).WriteConfigAs w.fs
    (ConfigFilePath ++ "/nyrna_config.json")).1

/-! ## The program: `notify.go` -/

/-- A Go `error` value, with the text its `Error()` method gives. -/
structure GoError where
  text : String
deriving DecidableEq, Repr

/-- An operand of `fmt.Sprintf`: a string, or an `error` interface value (`none` is `nil`). -/
inductive Operand where
  | str (s : String)
  | err (e : Option GoError)

/-- How the verb `%v` prints an operand. -/
def Operand.verbV : Operand → String
  | Operand.str s => s
  | Operand.err (some e) => e.text
  | Operand.err none => "<nil>"

/-- The format scan: the text up to the first `%v`, the operand, the text after it. -/
def substV : List Char → List Char → List Char
  | '%' :: 'v' :: rest, arg => arg ++ rest
  | c :: rest, arg => c :: substV rest arg
  | [], _ => []

/-- Go: `fmt.Sprintf(format, a)` for a format with one `%v` verb and one operand. -/
def fmt_Sprintf (format : String) (a : Operand) : String :=
  String.mk (substV format.data a.verbV.data)

/-- Go: `func NotifySuspend(name string)`.  The parameter `notify` is the answer of
`beeep.Notify(title, message, appIcon)`: `none` for `nil`, else the error.  The result is
the events of the call. -/
def NotifySuspend (notify : String → String → String → Option GoError) (name : String) :
    List Event :=
  let message := fmt_Sprintf "%v was suspended." (Operand.str name)
  let err := notify "Suspended" message "icons/nyrna.png"
  Event.notified "Suspended" message "icons/nyrna.png" ::
    (match err with
     | some e => [Event.logged e.text]
     | none => [])

/-- Go: `func NotifyResume(name string)`. -/
def NotifyResume (notify : String → String → String → Option GoError) (name : String) :
    List Event :=
  let message := fmt_Sprintf "%v was resumed." (Operand.str name)
  let err := notify "Resumed" message "icons/nyrna.png"
  Event.notified "Resumed" message "icons/nyrna.png" ::
    (match err with
     | some e => [Event.logged e.text]
     | none => [])

/-- Go: `func NotifyHotkeyFailure(hotkeyErr error)`. -/
def NotifyHotkeyFailure (notify : String → String → String → Option GoError)
    (hotkeyErr : Option GoError) : List Event :=
  let message := fmt_Sprintf "%v" (Operand.err hotkeyErr)
  let err := notify "Issue" message "icons/nyrna.png"
  Event.notified "Issue" message "icons/nyrna.png" ::
    (match err with
     | some e => [Event.logged e.text]
     | none => [])

/-! ## Reading the event list, and the states a process can be in -/

/-- The lines written with `log.Println`, in order. -/
def loggedLines : List Event → List String
  | [] => []
  | Event.logged line :: rest => line :: loggedLines rest
  | _ :: rest => loggedLines rest

/-- The notifications handed to `beeep.Notify`, in order: title, message, icon. -/
def dispatched : List Event → List (String × String × String)
  | [] => []
  | Event.notified title message appIcon :: rest => (title, message, appIcon) :: dispatched rest
  | _ :: rest => dispatched rest

/-- The errors handed to `Check`, in order. -/
def checkedErrors : List Event → List ViperError
  | [] => []
  | Event.checked err :: rest => err :: checkedErrors rest
  | _ :: rest => checkedErrors rest

/-- The registry searches no directory but `dir`.  Only `ConfigLoad` adds a search path,
and it adds `absPathify ConfigFilePath`, so a process that keeps `ConfigFilePath`, its
working directory and its environment fixed stays in these states (`searchesOnly_New`,
`searchesOnly_ConfigLoad`, `searchesOnly_ConfigWrite`). -/
def SearchesOnly (dir : String) (v : Viper) : Prop := ∀ p ∈ v.configPaths, p = dir

instance (dir : String) (v : Viper) : Decidable (SearchesOnly dir v) :=
  inferInstanceAs (Decidable (∀ p ∈ v.configPaths, p = dir))

/-- A path element that `Clean` keeps as it is. -/
def plainElement (e : List Char) : Bool :=
  decide (e ≠ [] ∧ e ≠ ['.'] ∧ e ≠ ['.', '.'] ∧ '/' ∉ e)

/-- A path has no `..` element. -/
def dotdotFree (path : String) : Bool := decide (['.', '.'] ∉ pathElements path.data)

/-- A directory path written out: not empty, without `$` (no variable for viper to
expand) and without `..` elements; it may be relative, and it may carry doubled
separators, `.` elements or a separator at the end. -/
def PlainDir (dir : String) : Bool :=
  decide (dir ≠ "") && decide ('$' ∉ dir.data) && dotdotFree dir

/-- The working directory is an absolute path without `..` elements, as `os.Getwd`
reports it. -/
def FS.cwdPlain (fs : FS) : Bool := filepath_IsAbs fs.cwd && dotdotFree fs.cwd

/-- No config file that viper would pick up lies in `dir`: no `nyrna_config.<ext>` for
a supported extension and no bare `nyrna_config`. -/
def noConfigFileIn (fs : FS) (dir : String) : Bool :=
  SupportedExts.all (fun ext => !fs.exists (filepath_Join dir ("nyrna_config" ++ "." ++ ext)))
    && !fs.exists (filepath_Join dir "nyrna_config")

/-- The process after a run of `ConfigLoad` calls, the `i`-th of them against the file
system `later[i]` (the files may change between calls); `none` when one of the calls
ended the process. -/
def afterLoads (check : ViperError → Flow) (ConfigFilePath : String) :
    World → List FS → Option World
  | w, [] => some w
  | w, fs :: rest =>
    match ConfigLoad check ConfigFilePath { w with fs := fs } with
    | (w1, some _) => afterLoads check ConfigFilePath w1 rest
    | (_, none) => none

/-! ## Concrete file systems and processes -/

/-- A file system without files, in which every file can be created. -/
def emptyFS : FS :=
  { files := fun _ => none, mayWrite := fun _ => true, cwd := "/", expandEnv := fun p => p }

/-- A file system without files in which no file can be created (the directories are
missing or not writable). -/
def unwritableFS : FS :=
  { files := fun _ => none, mayWrite := fun _ => false, cwd := "/", expandEnv := fun p => p }

/-- A file system with the one file of the absolute clean name `name`, whose read gives
`st`; any file can be written. -/
def singleFileFS (name : String) (st : FileState) : FS :=
  { files := fun p => if p = name then some st else none, mayWrite := fun _ => true,
    cwd := "/", expandEnv := fun p => p }

/-- A process that has not touched viper yet, on the file system `fs`. -/
def freshWorld (fs : FS) : World := { viper := Viper.New, fs := fs, events := [] }

/-- A handler that logs and returns, the alternative to the fatal `Check`. -/
def checkReturns (_err : ViperError) : Flow := Flow.returns

/-! ## Lemmas on paths -/

theorem splitSlash_ne_nil (p : List Char) : splitSlash p ≠ [] := by
  cases p with
  | nil => simp [splitSlash]
  | cons c cs =>
    unfold splitSlash
    split <;> simp

theorem splitSlash_append (a b : List Char) :
    splitSlash (a ++ '/' :: b) = splitSlash a ++ splitSlash b := by
  induction a with
  | nil => simp [splitSlash]
  | cons c a ih =>
    have hne := splitSlash_ne_nil a
    by_cases hc : c = '/'
    · simp [splitSlash, hc, ih]
    · simp only [List.cons_append, splitSlash, if_neg hc, List.append_eq]
      rw [ih]
      cases hs : splitSlash a with
      | nil => exact absurd hs hne
      | cons e es => simp

theorem pathElements_append (a b : List Char) :
    pathElements (a ++ '/' :: b) = pathElements a ++ pathElements b := by
  simp [pathElements, splitSlash_append]

theorem splitSlash_of_no_slash (e : List Char) (h : '/' ∉ e) : splitSlash e = [e] := by
  induction e with
  | nil => rfl
  | cons c e ih =>
    have hc : c ≠ '/' := fun hc => h (by simp [hc])
    have he : '/' ∉ e := fun he => h (by simp [he])
    simp [splitSlash, hc, ih he]

theorem splitSlash_no_slash (p : List Char) : ∀ e ∈ splitSlash p, '/' ∉ e := by
  induction p with
  | nil => simp [splitSlash]
  | cons c p ih =>
    have hne := splitSlash_ne_nil p
    by_cases hc : c = '/'
    · simp only [splitSlash, if_pos hc]
      intro e he
      rcases List.mem_cons.mp he with h | h
      · simp [h]
      · exact ih e h
    · simp only [splitSlash, if_neg hc]
      cases hs : splitSlash p with
      | nil => exact absurd hs hne
      | cons e0 es =>
        rw [hs] at ih
        intro e he
        simp only [List.headD_cons, List.tail_cons, List.mem_cons] at he
        rcases he with h | h
        · rw [h]
          intro hm
          rcases List.mem_cons.mp hm with h1 | h1
          · exact hc h1.symm
          · exact ih e0 (by simp) h1
        · exact ih e (by simp [h])

theorem splitSlash_joinSlash : ∀ es : List (List Char), es ≠ [] → (∀ e ∈ es, '/' ∉ e) →
    splitSlash (joinSlash es) = es
  | [], h, _ => absurd rfl h
  | [e], _, hs => by
    simpa [joinSlash] using splitSlash_of_no_slash e (hs e (by simp))
  | e :: e2 :: es, _, hs => by
    have ih := splitSlash_joinSlash (e2 :: es) (by simp) (fun x hx => hs x (by simp [hx]))
    simp only [joinSlash]
    rw [splitSlash_append, ih, splitSlash_of_no_slash e (hs e (by simp))]
    rfl

theorem pathElements_rooted_join (es : List (List Char))
    (h : ∀ e ∈ es, plainElement e = true) : pathElements ('/' :: joinSlash es) = es := by
  have hfil : es.filter (fun e => decide (e ≠ [] ∧ e ≠ ['.'])) = es := by
    rw [List.filter_eq_self]
    intro e he
    have := h e he
    simp only [plainElement, decide_eq_true_eq] at this
    simp [this.1, this.2.1]
  by_cases hes : es = []
  · subst hes
    simp [pathElements, splitSlash, joinSlash]
  · have hsl : ∀ e ∈ es, '/' ∉ e := by
      intro e he
      have := h e he
      simp only [plainElement, decide_eq_true_eq] at this
      exact this.2.2.2
    simp only [pathElements, splitSlash, if_true, splitSlash_joinSlash es hes hsl]
    rw [List.filter_cons_of_neg (by simp)]
    exact hfil

theorem cleanElements_plain (rooted : Bool) (es : List (List Char))
    (h : ∀ e ∈ es, plainElement e = true) : cleanElements rooted es = es := by
  have hfold : ∀ (l acc : List (List Char)), (∀ e ∈ l, plainElement e = true) →
      l.foldl (cleanStep rooted) acc = l.reverse ++ acc := by
    intro l
    induction l with
    | nil => intro acc _; rfl
    | cons e l ih =>
      intro acc hl
      have he := hl e (by simp)
      simp only [plainElement, decide_eq_true_eq] at he
      simp only [List.foldl_cons, cleanStep, if_neg he.2.2.1]
      rw [ih (e :: acc) (fun x hx => hl x (by simp [hx]))]
      simp
  simp [cleanElements, hfold es [] h]

/-- The elements of a path, when none of them is `..`, are all kept by `Clean`. -/
theorem pathElements_plain (p : List Char) (hdd : ['.', '.'] ∉ pathElements p) :
    ∀ e ∈ pathElements p, plainElement e = true := by
  intro e he
  have hne : e ≠ ['.', '.'] := fun h => hdd (h ▸ he)
  simp only [pathElements, List.mem_filter, decide_eq_true_eq] at he
  simp only [plainElement, decide_eq_true_eq]
  exact ⟨he.2.1, he.2.2, hne, splitSlash_no_slash p e he.1⟩

/-- The `Clean` of a rooted path without `..` elements: the separator, then the elements
joined. -/
theorem cleanChars_rooted (q : List Char) (hdd : ['.', '.'] ∉ pathElements ('/' :: q)) :
    cleanChars ('/' :: q) = '/' :: joinSlash (pathElements ('/' :: q)) := by
  simp [cleanChars, cleanElements_plain true _ (pathElements_plain _ hdd)]

theorem pathElements_cleanChars_rooted (q : List Char)
    (hdd : ['.', '.'] ∉ pathElements ('/' :: q)) :
    pathElements (cleanChars ('/' :: q)) = pathElements ('/' :: q) := by
  rw [cleanChars_rooted q hdd, pathElements_rooted_join _ (pathElements_plain _ hdd)]

theorem cleanChars_idem_rooted (q : List Char) (hdd : ['.', '.'] ∉ pathElements ('/' :: q)) :
    cleanChars (cleanChars ('/' :: q)) = cleanChars ('/' :: q) := by
  have h1 := cleanChars_rooted q hdd
  have h2 := pathElements_cleanChars_rooted q hdd
  rw [h1] at h2 ⊢
  rw [cleanChars_rooted _ (by rw [h2]; exact hdd), h2]

/-- Cleaning a rooted directory first and appending a file name, or appending it to the
directory as given, names the same clean path. -/
theorem cleanChars_append_rooted (q f : List Char)
    (hdd : ['.', '.'] ∉ pathElements ('/' :: q)) (hf : pathElements f = [f])
    (hfd : f ≠ ['.', '.']) :
    cleanChars (cleanChars ('/' :: q) ++ '/' :: f) = cleanChars (('/' :: q) ++ '/' :: f) := by
  have hdd2 : ['.', '.'] ∉ pathElements ('/' :: (q ++ '/' :: f)) := by
    have := pathElements_append ('/' :: q) f
    simp only [List.cons_append] at this
    rw [this, hf]
    simp only [List.mem_append, List.mem_singleton, not_or]
    exact ⟨hdd, fun h => hfd h.symm⟩
  have h1 := cleanChars_rooted q hdd
  rw [h1]
  have hdd3 : ['.', '.'] ∉ pathElements ('/' :: (joinSlash (pathElements ('/' :: q)) ++ '/' :: f)) := by
    have := pathElements_append ('/' :: joinSlash (pathElements ('/' :: q))) f
    simp only [List.cons_append] at this
    rw [this, hf, pathElements_rooted_join _ (pathElements_plain _ hdd)]
    simp only [List.mem_append, List.mem_singleton, not_or]
    exact ⟨hdd, fun h => hfd h.symm⟩
  simp only [List.cons_append]
  rw [cleanChars_rooted _ hdd2, cleanChars_rooted _ hdd3]
  have e1 := pathElements_append ('/' :: joinSlash (pathElements ('/' :: q))) f
  have e2 := pathElements_append ('/' :: q) f
  simp only [List.cons_append] at e1 e2
  rw [e1, e2, pathElements_rooted_join _ (pathElements_plain _ hdd)]

theorem data_append_slash (x f : String) :
    (x ++ "/" ++ f).data = x.data ++ '/' :: f.data := by
  simp [String.data_append]

theorem isAbs_data (x : String) (h : filepath_IsAbs x = true) : ∃ q, x.data = '/' :: q := by
  unfold filepath_IsAbs at h
  cases hx : x.data with
  | nil => simp [hx] at h
  | cons c q =>
    simp [hx] at h
    exact ⟨q, by rw [h]⟩

theorem clean_idem (x : String) (habs : filepath_IsAbs x = true) (hdd : dotdotFree x = true) :
    filepath_Clean (filepath_Clean x) = filepath_Clean x := by
  obtain ⟨q, hq⟩ := isAbs_data x habs
  unfold dotdotFree at hdd
  rw [hq] at hdd
  unfold filepath_Clean
  rw [hq]
  exact congrArg String.mk (cleanChars_idem_rooted q (by simpa using hdd))

theorem isAbs_clean (x : String) (habs : filepath_IsAbs x = true)
    (hdd : dotdotFree x = true) : filepath_IsAbs (filepath_Clean x) = true := by
  obtain ⟨q, hq⟩ := isAbs_data x habs
  unfold dotdotFree at hdd
  rw [hq] at hdd
  unfold filepath_Clean filepath_IsAbs
  rw [hq, cleanChars_rooted q (by simpa using hdd)]
  simp

theorem clean_ne_empty (x : String) (habs : filepath_IsAbs x = true)
    (hdd : dotdotFree x = true) : filepath_Clean x ≠ "" := by
  intro h
  have := isAbs_clean x habs hdd
  rw [h] at this
  simp [filepath_IsAbs] at this

/-- The file name viper looks for: one plain path element. -/
theorem config_json_element :
    pathElements "nyrna_config.json".data = ["nyrna_config.json".data] ∧
      "nyrna_config.json".data ≠ ['.', '.'] := by
  decide

theorem isAbs_append (x y : String) (habs : filepath_IsAbs x = true) :
    filepath_IsAbs (x ++ y) = true := by
  obtain ⟨q, hq⟩ := isAbs_data x habs
  simp [filepath_IsAbs, String.data_append, hq]

theorem dotdotFree_append (x f : String) (hdd : dotdotFree x = true)
    (hf : pathElements f.data = [f.data]) (hfd : f.data ≠ ['.', '.']) :
    dotdotFree (x ++ "/" ++ f) = true := by
  unfold dotdotFree at hdd ⊢
  rw [data_append_slash, pathElements_append, hf]
  simp only [decide_eq_true_eq, List.mem_append, List.mem_singleton, not_or] at hdd ⊢
  exact ⟨hdd, fun h => hfd h.symm⟩

theorem dotdotFree_append_dir (x y : String) (hx : dotdotFree x = true)
    (hy : dotdotFree y = true) : dotdotFree (x ++ "/" ++ y) = true := by
  unfold dotdotFree at hx hy ⊢
  rw [data_append_slash, pathElements_append]
  simp only [decide_eq_true_eq, List.mem_append, not_or] at hx hy ⊢
  exact ⟨hx, hy⟩

theorem clean_append (x f : String) (habs : filepath_IsAbs x = true)
    (hdd : dotdotFree x = true) (hf : pathElements f.data = [f.data])
    (hfd : f.data ≠ ['.', '.']) :
    filepath_Clean (filepath_Clean x ++ "/" ++ f) = filepath_Clean (x ++ "/" ++ f) := by
  obtain ⟨q, hq⟩ := isAbs_data x habs
  unfold dotdotFree at hdd
  rw [hq] at hdd
  unfold filepath_Clean
  rw [data_append_slash, data_append_slash, hq]
  exact congrArg String.mk (cleanChars_append_rooted q f.data (by simpa using hdd) hf hfd)

/-- The path a plain directory stands for: itself when absolute, else taken from the
working directory. -/
theorem plainDir_full (fs : FS) (dir : String) (hdir : PlainDir dir = true)
    (hcwd : fs.cwdPlain = true) :
    filepath_IsAbs (if filepath_IsAbs dir = true then dir else fs.cwd ++ "/" ++ dir) = true ∧
      dotdotFree (if filepath_IsAbs dir = true then dir else fs.cwd ++ "/" ++ dir) = true := by
  simp only [PlainDir, FS.cwdPlain, Bool.and_eq_true] at hdir hcwd
  by_cases habs : filepath_IsAbs dir = true
  · rw [if_pos habs]
    exact ⟨habs, hdir.2⟩
  · rw [if_neg habs]
    constructor
    · have := isAbs_append fs.cwd ("/" ++ dir) hcwd.1
      rwa [← String.append_assoc] at this
    · exact dotdotFree_append_dir fs.cwd dir hcwd.2 hdir.2

/-- The directory viper searches for a plain `ConfigFilePath`: the path it stands for,
cleaned. -/
theorem absPathify_plain (fs : FS) (dir : String) (hdir : PlainDir dir = true)
    (hcwd : fs.cwdPlain = true) :
    absPathify fs dir =
      filepath_Clean (if filepath_IsAbs dir = true then dir else fs.cwd ++ "/" ++ dir) := by
  have hfull := plainDir_full fs dir hdir hcwd
  simp only [PlainDir, FS.cwdPlain, Bool.and_eq_true, decide_eq_true_eq] at hdir hcwd
  unfold absPathify
  simp only [if_neg hdir.1.2]
  by_cases habs : filepath_IsAbs dir = true
  · simp only [habs, if_true]
  · have hfalse : filepath_IsAbs dir = false := by simpa using habs
    rw [if_neg habs] at hfull
    have hc : fs.cwd ≠ "" := by
      intro h
      have := hcwd.1
      rw [h] at this
      simp [filepath_IsAbs] at this
    simp only [hfalse, filepath_Abs, filepath_Join, if_neg hc, if_neg hdir.1.1]
    simp only [Bool.false_eq_true, if_false]
    exact clean_idem _ hfull.1 hfull.2

/-- The file viper looks for under a plain `ConfigFilePath` is the file the name
`ConfigFilePath + "/nyrna_config.json"` leads to. -/
theorem search_name (fs : FS) (dir : String) (hdir : PlainDir dir = true)
    (hcwd : fs.cwdPlain = true) :
    fs.resolve (filepath_Join (absPathify fs dir) "nyrna_config.json") =
        fs.resolve (dir ++ "/nyrna_config.json") ∧
      filepath_Join (absPathify fs dir) "nyrna_config.json" ≠ "" := by
  have hfull := plainDir_full fs dir hdir hcwd
  have habsP := absPathify_plain fs dir hdir hcwd
  have hel := config_json_element
  have hne := clean_ne_empty _ hfull.1 hfull.2
  have hfd := dotdotFree_append _ "nyrna_config.json" hfull.2 hel.1 hel.2
  have hfa : filepath_IsAbs
      ((if filepath_IsAbs dir = true then dir else fs.cwd ++ "/" ++ dir) ++ "/" ++
        "nyrna_config.json") = true := by
    rw [String.append_assoc]
    exact isAbs_append _ _ hfull.1
  have hjoin : filepath_Join (absPathify fs dir) "nyrna_config.json" =
      filepath_Clean ((if filepath_IsAbs dir = true then dir else fs.cwd ++ "/" ++ dir) ++
        "/" ++ "nyrna_config.json") := by
    rw [habsP]
    unfold filepath_Join
    rw [if_neg hne, if_neg (by decide)]
    exact clean_append _ _ hfull.1 hfull.2 hel.1 hel.2
  have hraw : fs.resolve (dir ++ "/nyrna_config.json") =
      filepath_Clean ((if filepath_IsAbs dir = true then dir else fs.cwd ++ "/" ++ dir) ++
        "/" ++ "nyrna_config.json") := by
    simp only [PlainDir, Bool.and_eq_true, decide_eq_true_eq] at hdir
    unfold FS.resolve
    by_cases habs : filepath_IsAbs dir = true
    · rw [if_pos (isAbs_append dir _ habs), if_pos habs]
      congr 1
      apply String.ext
      simp [String.data_append]
    · have hrel : ¬ filepath_IsAbs (dir ++ "/nyrna_config.json") = true := by
        intro h
        apply habs
        unfold filepath_IsAbs at h ⊢
        cases hd : dir.data with
        | nil => exact absurd (String.ext (by rw [hd])) hdir.1.1
        | cons c q => simpa [String.data_append, hd] using h
      rw [if_neg hrel, if_neg habs]
      congr 1
      apply String.ext
      simp [String.data_append]
  refine ⟨?_, ?_⟩
  · rw [hraw, hjoin]
    unfold FS.resolve
    rw [if_pos (isAbs_clean _ hfa hfd)]
    exact clean_idem _ hfa hfd
  · rw [hjoin]
    exact clean_ne_empty _ hfa hfd

/-! ## Lemmas on maps and the registry -/

theorem Settings.get_set_self (m : Settings) (key : String) (v : Value) :
    (m.set key v).get key = some v := by
  simp [Settings.set, Settings.get]

theorem searchMap_set_str (m : Settings) (key s : String) :
    searchMap (m.set key (Value.str s)) key = some (Value.str s) := by
  simp [searchMap, Settings.get_set_self]

theorem find_of_override (v : Viper) (key : String) (val : Value)
    (h : searchMap v.override key = some val) : v.find key = some val := by
  simp [Viper.find, h]

theorem find_of_config (v : Viper) (key : String) (val : Value)
    (ho : searchMap v.override key = none) (h : searchMap v.config key = some val) :
    v.find key = some val := by
  simp [Viper.find, ho, h]

theorem find_of_defaults (v : Viper) (key : String)
    (ho : searchMap v.override key = none) (hc : searchMap v.config key = none) :
    v.find key = searchMap v.defaults key := by
  simp [Viper.find, ho, hc]

theorem loadSetup_eq (fs : FS) (dir : String) (v : Viper) :
    loadSetup fs dir v =
      { configName := "nyrna_config", configType := "json",
        configPaths :=
          if dir ≠ "" ∧ absPathify fs dir ∉ v.configPaths then
            v.configPaths ++ [absPathify fs dir]
          else v.configPaths,
        configFile := "", config := v.config, override := v.override,
        defaults := v.defaults.set "hotkey" (Value.str "Pause") } := by
  unfold loadSetup Viper.SetDefault Viper.AddConfigPath Viper.SetConfigType Viper.SetConfigName
  by_cases h1 : dir = ""
  · simp [h1]
  · by_cases h2 : absPathify fs dir ∈ v.configPaths
    · simp [h1, h2]
    · simp [h1, h2]

theorem loadSetup_defaults (fs : FS) (dir : String) (v : Viper) :
    searchMap (loadSetup fs dir v).defaults "hotkey" = some (Value.str "Pause") := by
  rw [loadSetup_eq]
  exact searchMap_set_str _ _ _

theorem loadSetup_searchesOnly (fs : FS) (dir : String) (v : Viper)
    (hv : SearchesOnly (absPathify fs dir) v) :
    SearchesOnly (absPathify fs dir) (loadSetup fs dir v) := by
  rw [loadSetup_eq]
  intro p hp
  by_cases h : dir ≠ "" ∧ absPathify fs dir ∉ v.configPaths
  · simp only [if_pos h, List.mem_append, List.mem_singleton] at hp
    rcases hp with hp | hp
    · exact hv p hp
    · exact hp
  · simp only [if_neg h] at hp
    exact hv p hp

theorem loadSetup_configPaths_ne_nil (fs : FS) (dir : String) (v : Viper) (hdir : dir ≠ "") :
    (loadSetup fs dir v).configPaths ≠ [] := by
  rw [loadSetup_eq]
  by_cases h2 : absPathify fs dir ∈ v.configPaths
  · simp [hdir, h2]
    exact List.ne_nil_of_mem h2
  · simp [hdir, h2]

theorem find?_map_const {α : Type} (f : String → α) (q : α → Bool) (dir : String) :
    ∀ l : List String, (∀ p ∈ l, p = dir) → l ≠ [] →
      (l.map f).find? q = if q (f dir) = true then some (f dir) else none
  | [], _, hne => absurd rfl hne
  | a :: l, hall, _ => by
    have ha : a = dir := hall a (by simp)
    subst ha
    by_cases hq : q (f a) = true
    · simp [List.find?, hq]
    · have hq2 : q (f a) = false := by simpa using hq
      by_cases hl : l = []
      · simp [hl, List.find?, hq2]
      · have ih := find?_map_const f q a l (fun p hp => hall p (by simp [hp])) hl
        simp [List.find?, hq2, ih]

theorem find?_map_none {α : Type} (f : String → α) (q : α → Bool) :
    ∀ l : List String, (∀ p ∈ l, q (f p) = false) → (l.map f).find? q = none
  | [], _ => rfl
  | a :: l, hall => by
    have ha : q (f a) = false := hall a (by simp)
    have ih := find?_map_none f q l (fun p hp => hall p (by simp [hp]))
    simp [List.find?, ha, ih]

/-- When `nyrna_config.json` exists in the directory searched, the search stops at it. -/
theorem searchInPath_json (v : Viper) (fs : FS) (d : String)
    (hname : v.configName = "nyrna_config")
    (hex : fs.exists (filepath_Join d "nyrna_config.json") = true) :
    v.searchInPath fs d = filepath_Join d "nyrna_config.json" := by
  unfold Viper.searchInPath
  have h : SupportedExts.find?
      (fun ext => fs.exists (filepath_Join d (v.configName ++ "." ++ ext))) = some "json" := by
    simp [SupportedExts, List.find?, hname, hex]
  rw [h]
  simp [hname]

/-- When the directory searched holds no config file, the search gives the empty name. -/
theorem searchInPath_none (v : Viper) (fs : FS) (d : String)
    (hname : v.configName = "nyrna_config") (hno : noConfigFileIn fs d = true) :
    v.searchInPath fs d = "" := by
  unfold Viper.searchInPath
  simp only [noConfigFileIn, Bool.and_eq_true, List.all_eq_true, Bool.not_eq_true'] at hno
  have h : SupportedExts.find?
      (fun ext => fs.exists (filepath_Join d (v.configName ++ "." ++ ext))) = none := by
    rw [List.find?_eq_none]
    intro ext hext
    rw [hname]
    simpa using hno.1 ext hext
  rw [h]
  simp [hname, hno.2]

theorem findConfigFile_json (v : Viper) (fs : FS) (d : String)
    (hname : v.configName = "nyrna_config") (hv : SearchesOnly d v)
    (hne : v.configPaths ≠ [])
    (hex : fs.exists (filepath_Join d "nyrna_config.json") = true)
    (hjne : filepath_Join d "nyrna_config.json" ≠ "") :
    v.findConfigFile fs = Except.ok (filepath_Join d "nyrna_config.json") := by
  unfold Viper.findConfigFile
  rw [find?_map_const (v.searchInPath fs) _ d v.configPaths hv hne,
    searchInPath_json v fs d hname hex]
  simp [hjne]

theorem findConfigFile_none (v : Viper) (fs : FS) (d : String)
    (hname : v.configName = "nyrna_config") (hv : SearchesOnly d v)
    (hno : noConfigFileIn fs d = true) :
    v.findConfigFile fs =
      Except.error (ViperError.ConfigFileNotFoundError "nyrna_config" v.configPaths) := by
  unfold Viper.findConfigFile
  rw [find?_map_none (v.searchInPath fs) _ v.configPaths, hname]
  intro p hp
  rw [hv p hp, searchInPath_none v fs d hname hno]
  simp

/-- The read of `ConfigLoad`, by cases on the search and on the file found. -/
theorem readInConfig_loadSetup (dir : String) (v : Viper) (fs : FS) :
    (loadSetup fs dir v).ReadInConfig fs =
      match (loadSetup fs dir v).findConfigFile fs with
      | Except.error e => (some e, loadSetup fs dir v)
      | Except.ok file =>
        match readFile fs file with
        | Except.error e => (some e, { loadSetup fs dir v with configFile := file })
        | Except.ok doc =>
          (none, { loadSetup fs dir v with configFile := file, config := doc }) := by
  have hf : (loadSetup fs dir v).configFile = "" := by rw [loadSetup_eq]
  have ht : (loadSetup fs dir v).configType = "json" := by rw [loadSetup_eq]
  unfold Viper.ReadInConfig Viper.getConfigFile
  rw [if_pos hf]
  cases hfind : (loadSetup fs dir v).findConfigFile fs with
  | error e => rfl
  | ok file =>
    have hty : Viper.getConfigType { loadSetup fs dir v with configFile := file } fs =
        "json" := by
      simp [Viper.getConfigType, ht]
    simp only [hty]
    cases hread : readFile fs file with
    | error e => simp [SupportedExts]
    | ok doc => simp [SupportedExts]

theorem readInConfig_override (dir : String) (v : Viper) (fs : FS) :
    ((loadSetup fs dir v).ReadInConfig fs).2.override = v.override := by
  have ho : (loadSetup fs dir v).override = v.override := by rw [loadSetup_eq]
  rw [readInConfig_loadSetup]
  split
  · exact ho
  · split
    · exact ho
    · exact ho

theorem readInConfig_searchesOnly (dir : String) (v : Viper) (fs : FS)
    (hv : SearchesOnly (absPathify fs dir) v) :
    SearchesOnly (absPathify fs dir) ((loadSetup fs dir v).ReadInConfig fs).2 := by
  have hs := loadSetup_searchesOnly fs dir v hv
  rw [readInConfig_loadSetup]
  split
  · exact hs
  · split
    · exact hs
    · exact hs

/-- The body of `ConfigLoad`, by cases on the error of the read and on what `Check` does. -/
theorem configLoad_eq (check : ViperError → Flow) (dir : String) (w : World) :
    ConfigLoad check dir w =
      match ((loadSetup w.fs dir w.viper).ReadInConfig w.fs).1 with
      | some e =>
        match check e with
        | Flow.exits =>
          ({ viper := ((loadSetup w.fs dir w.viper).ReadInConfig w.fs).2, fs := w.fs,
             events := w.events ++ [Event.checked e] }, none)
        | Flow.returns =>
          ({ viper := ((loadSetup w.fs dir w.viper).ReadInConfig w.fs).2, fs := w.fs,
             events := w.events ++ [Event.checked e] ++
               [Event.logged ("Hotkey is: " ++
                 ((loadSetup w.fs dir w.viper).ReadInConfig w.fs).2.GetString "hotkey")] },
            some (((loadSetup w.fs dir w.viper).ReadInConfig w.fs).2.GetString "hotkey"))
      | none =>
        ({ viper := ((loadSetup w.fs dir w.viper).ReadInConfig w.fs).2, fs := w.fs,
           events := w.events ++
             [Event.logged ("Hotkey is: " ++
               ((loadSetup w.fs dir w.viper).ReadInConfig w.fs).2.GetString "hotkey")] },
          some (((loadSetup w.fs dir w.viper).ReadInConfig w.fs).2.GetString "hotkey")) := by
  rfl

theorem checkedErrors_append (xs ys : List Event) :
    checkedErrors (xs ++ ys) = checkedErrors xs ++ checkedErrors ys := by
  induction xs with
  | nil => rfl
  | cons x xs ih => cases x <;> simp [checkedErrors, ih]

theorem searchesOnly_New (dir : String) : SearchesOnly dir Viper.New := by
  intro p hp
  cases hp

theorem searchesOnly_ConfigLoad (check : ViperError → Flow) (dir : String) (w : World)
    (hv : SearchesOnly (absPathify w.fs dir) w.viper) :
    SearchesOnly (absPathify w.fs dir) (ConfigLoad check dir w).1.viper := by
  have hs := readInConfig_searchesOnly dir w.viper w.fs hv
  rw [configLoad_eq]
  split
  · split
    · exact hs
    · exact hs
  · exact hs

theorem configLoad_override (check : ViperError → Flow) (dir : String) (w : World) :
    (ConfigLoad check dir w).1.viper.override = w.viper.override := by
  have ho := readInConfig_override dir w.viper w.fs
  rw [configLoad_eq]
  split
  · split
    · exact ho
    · exact ho
  · exact ho

/-- With a hotkey set in the override layer, a `ConfigLoad` that returns, returns it. -/
theorem configLoad_of_override (check : ViperError → Flow) (dir k : String) (w : World)
    (hset : searchMap w.viper.override "hotkey" = some (Value.str k)) :
    (loadReadError dir w = none → (ConfigLoad check dir w).2 = some k) ∧
      (∀ h, (ConfigLoad check dir w).2 = some h → h = k) := by
  have hg : ((loadSetup w.fs dir w.viper).ReadInConfig w.fs).2.GetString "hotkey" = k := by
    unfold Viper.GetString
    rw [find_of_override _ "hotkey" (Value.str k)
      (by rw [readInConfig_override]; exact hset)]
    rfl
  rw [configLoad_eq, hg]
  unfold loadReadError
  constructor
  · intro hnone
    rw [hnone]
  · intro h hh
    split at hh
    · split at hh
      · cases hh
      · exact (Option.some.inj hh).symm
    · exact (Option.some.inj hh).symm

/-- The read of `ConfigLoad` when the name `ConfigFilePath + "/nyrna_config.json"` leads
to a file: that file is the one read, under its clean name, whatever its state. -/
theorem readInConfig_json (dir : String) (v : Viper) (fs : FS) (hdir : PlainDir dir = true)
    (hcwd : fs.cwdPlain = true) (hv : SearchesOnly (absPathify fs dir) v)
    (hex : (fs.lookup (dir ++ "/nyrna_config.json")).isSome = true) :
    (loadSetup fs dir v).ReadInConfig fs =
      match readFile fs (filepath_Join (absPathify fs dir) "nyrna_config.json") with
      | Except.error e =>
        (some e, { loadSetup fs dir v with
          configFile := filepath_Join (absPathify fs dir) "nyrna_config.json" })
      | Except.ok doc =>
        (none, { loadSetup fs dir v with
          configFile := filepath_Join (absPathify fs dir) "nyrna_config.json",
          config := doc }) := by
  have hsn := search_name fs dir hdir hcwd
  have hne : dir ≠ "" := by
    simp only [PlainDir, Bool.and_eq_true, decide_eq_true_eq] at hdir
    exact hdir.1.1
  rw [readInConfig_loadSetup,
    findConfigFile_json (loadSetup fs dir v) fs (absPathify fs dir) (by rw [loadSetup_eq])
      (loadSetup_searchesOnly fs dir v hv) (loadSetup_configPaths_ne_nil fs dir v hne)
      (by unfold FS.exists FS.lookup; rw [hsn.1]; exact hex) hsn.2]

/-- What the read finds under the clean name is what lies under the name as written. -/
theorem lookup_search_name (fs : FS) (dir : String) (hdir : PlainDir dir = true)
    (hcwd : fs.cwdPlain = true) :
    fs.lookup (filepath_Join (absPathify fs dir) "nyrna_config.json") =
      fs.lookup (dir ++ "/nyrna_config.json") := by
  unfold FS.lookup
  rw [(search_name fs dir hdir hcwd).1]

/-- A run of `ConfigLoad` calls leaves the override layer as it was. -/
theorem afterLoads_override (check : ViperError → Flow) (dir : String) :
    ∀ (later : List FS) (w w1 : World), afterLoads check dir w later = some w1 →
      w1.viper.override = w.viper.override
  | [], w, w1, h => by
    simp only [afterLoads, Option.some.injEq] at h
    rw [h]
  | fs :: rest, w, w1, h => by
    have ho := configLoad_override check dir { w with fs := fs }
    unfold afterLoads at h
    split at h
    · rename_i w2 hk heq
      rw [heq] at ho
      rw [afterLoads_override check dir rest w2 w1 h, ho]
    · cases h

theorem fmt_Sprintf_suffix (rest : String) (a : Operand) :
    fmt_Sprintf ("%v" ++ rest) a = a.verbV ++ rest := by
  apply String.ext
  simp [fmt_Sprintf, String.data_append, substV]

theorem sprintf_suspended (name : String) :
    fmt_Sprintf "%v was suspended." (Operand.str name) = name ++ " was suspended." :=
  fmt_Sprintf_suffix " was suspended." (Operand.str name)

theorem sprintf_resumed (name : String) :
    fmt_Sprintf "%v was resumed." (Operand.str name) = name ++ " was resumed." :=
  fmt_Sprintf_suffix " was resumed." (Operand.str name)

theorem sprintf_error (e : Option GoError) :
    fmt_Sprintf "%v" (Operand.err e) = (Operand.err e).verbV := by
  have h := fmt_Sprintf_suffix "" (Operand.err e)
  simpa using h

/-! ## The claims on `config.go` -/

/-- C1, as stated, fails: in a fresh process whose config directory holds no file,
`ConfigLoad` hands the "config file not found" error of the read to `Check`, with a
handler that returns as much as with the fatal one, and with the fatal `Check` it returns
no hotkey, so not "Pause". -/
theorem missing_file_is_checked :
    checkedErrors (ConfigLoad Check "/home/user/nyrna" (freshWorld emptyFS)).1.events =
        [ViperError.ConfigFileNotFoundError "nyrna_config" ["/home/user/nyrna"]] ∧
      (ConfigLoad Check "/home/user/nyrna" (freshWorld emptyFS)).2 = none ∧
      checkedErrors (ConfigLoad checkReturns "/home/user/nyrna" (freshWorld emptyFS)).1.events =
        [ViperError.ConfigFileNotFoundError "nyrna_config" ["/home/user/nyrna"]] := by
  decide

/-- C1, amended: when the directory viper searches for `ConfigFilePath` (the path made
absolute and cleaned) holds no config file and the process has neither set nor loaded a
hotkey, `ConfigLoad` hands the "config file not found" error to `Check`, once; if `Check`
returns, `ConfigLoad` returns the default "Pause", and if `Check` ends the process no
hotkey is returned. -/
theorem configLoad_missing_file (check : ViperError → Flow) (dir : String) (w : World)
    (hv : SearchesOnly (absPathify w.fs dir) w.viper)
    (hno : noConfigFileIn w.fs (absPathify w.fs dir) = true)
    (hset : searchMap w.viper.override "hotkey" = none)
    (hcfg : searchMap w.viper.config "hotkey" = none) :
    checkedErrors (ConfigLoad check dir w).1.events =
        checkedErrors w.events ++
          [ViperError.ConfigFileNotFoundError "nyrna_config"
            (loadSetup w.fs dir w.viper).configPaths] ∧
      (check (ViperError.ConfigFileNotFoundError "nyrna_config"
          (loadSetup w.fs dir w.viper).configPaths) = Flow.returns →
        (ConfigLoad check dir w).2 = some "Pause") ∧
      (check (ViperError.ConfigFileNotFoundError "nyrna_config"
          (loadSetup w.fs dir w.viper).configPaths) = Flow.exits →
        (ConfigLoad check dir w).2 = none) := by
  have hread : (loadSetup w.fs dir w.viper).ReadInConfig w.fs =
      (some (ViperError.ConfigFileNotFoundError "nyrna_config"
        (loadSetup w.fs dir w.viper).configPaths), loadSetup w.fs dir w.viper) := by
    rw [readInConfig_loadSetup,
      findConfigFile_none (loadSetup w.fs dir w.viper) w.fs (absPathify w.fs dir)
        (by rw [loadSetup_eq]) (loadSetup_searchesOnly w.fs dir w.viper hv) hno]
  have hg : (loadSetup w.fs dir w.viper).GetString "hotkey" = "Pause" := by
    unfold Viper.GetString
    rw [find_of_defaults _ "hotkey" (by rw [loadSetup_eq]; exact hset)
      (by rw [loadSetup_eq]; exact hcfg), loadSetup_defaults]
    rfl
  rw [configLoad_eq, hread]
  simp only [hg]
  cases hc : check (ViperError.ConfigFileNotFoundError "nyrna_config"
      (loadSetup w.fs dir w.viper).configPaths) with
  | returns => simp [checkedErrors_append, checkedErrors]
  | exits => simp [checkedErrors_append, checkedErrors]

/-- C1, amended, at a fresh process on an empty file system, with `ConfigFilePath`
written with a separator at the end and a handler that returns. -/
theorem configLoad_missing_file_witness :
    checkedErrors (ConfigLoad checkReturns "/home/user/nyrna/" (freshWorld emptyFS)).1.events =
        [ViperError.ConfigFileNotFoundError "nyrna_config" ["/home/user/nyrna"]] ∧
      (ConfigLoad checkReturns "/home/user/nyrna/" (freshWorld emptyFS)).2 = some "Pause" :=
  have h := configLoad_missing_file checkReturns "/home/user/nyrna/" (freshWorld emptyFS)
    (by decide) (by decide) (by decide) (by decide)
  ⟨h.1, h.2.1 rfl⟩

/-- C3: for a `ConfigFilePath` written out as a directory path, when the name
`ConfigFilePath + "/nyrna_config.json"` leads to a JSON object whose "hotkey" is the
string `h` and no hotkey was set earlier in the process, `ConfigLoad` returns `h`, and it
logs the hotkey without a call of `Check`. -/
theorem configLoad_reads_hotkey (check : ViperError → Flow) (dir : String) (w : World)
    (doc : Settings) (h : String)
    (hdir : PlainDir dir = true) (hcwd : w.fs.cwdPlain = true)
    (hv : SearchesOnly (absPathify w.fs dir) w.viper)
    (hfile : w.fs.lookup (dir ++ "/nyrna_config.json") = some (FileState.object doc))
    (hkey : doc.get "hotkey" = some (Value.str h))
    (hset : searchMap w.viper.override "hotkey" = none) :
    (ConfigLoad check dir w).2 = some h ∧
      (ConfigLoad check dir w).1.events = w.events ++ [Event.logged ("Hotkey is: " ++ h)] ∧
      checkedErrors (ConfigLoad check dir w).1.events = checkedErrors w.events := by
  have hread := readInConfig_json dir w.viper w.fs hdir hcwd hv (by rw [hfile]; rfl)
  have hrf : readFile w.fs (filepath_Join (absPathify w.fs dir) "nyrna_config.json") =
      Except.ok doc := by
    simp [readFile, lookup_search_name w.fs dir hdir hcwd, hfile]
  rw [hrf] at hread
  have hg : Viper.GetString
      { loadSetup w.fs dir w.viper with
        configFile := filepath_Join (absPathify w.fs dir) "nyrna_config.json",
        config := doc } "hotkey" = h := by
    unfold Viper.GetString
    rw [find_of_config _ "hotkey" (Value.str h) (by rw [loadSetup_eq]; exact hset)
      (by simp [searchMap, hkey])]
    rfl
  rw [configLoad_eq, hread]
  simp only [hg]
  simp [checkedErrors_append, checkedErrors]

/-- C3 at the file {"hotkey":"F8"} in a fresh process, with `ConfigFilePath` written with
a separator at the end: the hotkey returned is "F8". -/
theorem configLoad_reads_hotkey_witness :
    (ConfigLoad Check "/home/user/nyrna/"
      (freshWorld (singleFileFS "/home/user/nyrna/nyrna_config.json"
        (FileState.object [("hotkey", Value.str "F8")])))).2 = some "F8" :=
  (configLoad_reads_hotkey Check "/home/user/nyrna/"
    (freshWorld (singleFileFS "/home/user/nyrna/nyrna_config.json"
      (FileState.object [("hotkey", Value.str "F8")])))
    [("hotkey", Value.str "F8")] "F8" (by decide) (by decide) (by decide) (by decide)
    (by decide) (by decide)).1

/-- C4: for a `ConfigFilePath` written out as a directory path, when the name
`ConfigFilePath + "/nyrna_config.json"` leads to a file that does not decode, `ConfigLoad`
hands the parse error of the read to `Check` and, `Check` being fatal, returns no hotkey
and logs none; the same holds whenever the read fails with any error `e`. -/
theorem configLoad_read_error (dir : String) (w : World)
    (hdir : PlainDir dir = true) (hcwd : w.fs.cwdPlain = true)
    (hv : SearchesOnly (absPathify w.fs dir) w.viper) :
    (w.fs.lookup (dir ++ "/nyrna_config.json") = some FileState.malformed →
        (ConfigLoad Check dir w).2 = none ∧
          (ConfigLoad Check dir w).1.events = w.events ++
            [Event.checked (ViperError.ConfigParseError
              (filepath_Join (absPathify w.fs dir) "nyrna_config.json"))]) ∧
      (∀ e, loadReadError dir w = some e →
        (ConfigLoad Check dir w).2 = none ∧
          (ConfigLoad Check dir w).1.events = w.events ++ [Event.checked e]) := by
  have hgen : ∀ e, loadReadError dir w = some e →
      (ConfigLoad Check dir w).2 = none ∧
        (ConfigLoad Check dir w).1.events = w.events ++ [Event.checked e] := by
    intro e he
    unfold loadReadError at he
    rw [configLoad_eq, he]
    exact ⟨rfl, rfl⟩
  refine ⟨?_, hgen⟩
  intro hfile
  apply hgen
  have hread := readInConfig_json dir w.viper w.fs hdir hcwd hv (by rw [hfile]; rfl)
  have hrf : readFile w.fs (filepath_Join (absPathify w.fs dir) "nyrna_config.json") =
      Except.error (ViperError.ConfigParseError
        (filepath_Join (absPathify w.fs dir) "nyrna_config.json")) := by
    simp [readFile, lookup_search_name w.fs dir hdir hcwd, hfile]
  rw [hrf] at hread
  unfold loadReadError
  rw [hread]

/-- C4 at a config file whose content is not JSON, in a fresh process, with
`ConfigFilePath` written with a doubled separator. -/
theorem configLoad_read_error_witness :
    (ConfigLoad Check "/home//user/nyrna"
        (freshWorld (singleFileFS "/home/user/nyrna/nyrna_config.json" FileState.malformed))).2 =
        none ∧
      (ConfigLoad Check "/home//user/nyrna"
        (freshWorld (singleFileFS "/home/user/nyrna/nyrna_config.json"
          FileState.malformed))).1.events =
        [Event.checked (ViperError.ConfigParseError "/home/user/nyrna/nyrna_config.json")] :=
  have h := configLoad_read_error "/home//user/nyrna"
    (freshWorld (singleFileFS "/home/user/nyrna/nyrna_config.json" FileState.malformed))
    (by decide) (by decide) (by decide)
  h.1 (by decide)

/-- C9, the code at a failing write: with the config directory missing or not writable,
`viper.WriteConfigAs` returns an error, and `ConfigWrite` (which has no result) leaves no
trace of it: no event is recorded and no file is written. -/
theorem configWrite_drops_write_error :
    writeError "/missing" "F9" (freshWorld unwritableFS) =
        some (ViperError.OpenFileError "/missing/nyrna_config.json") ∧
      (ConfigWrite "/missing" "F9" (freshWorld unwritableFS)).events = [] ∧
      (ConfigWrite "/missing" "F9" (freshWorld unwritableFS)).fs.files
        "/missing/nyrna_config.json" = none ∧
      (ConfigWrite "/missing" "F9" (freshWorld emptyFS)).events = [] := by
  decide

/-- C10: after `ConfigWrite(k)` the in-memory hotkey is `k`, whether the write succeeded
or not, and after any run of later `ConfigLoad` calls, against whatever the file system
holds by then, a `ConfigLoad` whose read does not fail returns `k`, and one that returns
at all returns `k`. -/
theorem configWrite_override_persists (check : ViperError → Flow) (dir k : String)
    (w w1 : World) (later : List FS) (fs : FS)
    (hrun : afterLoads check dir (ConfigWrite dir k w) later = some w1) :
    (ConfigWrite dir k w).viper.GetString "hotkey" = k ∧
      (loadReadError dir { w1 with fs := fs } = none →
        (ConfigLoad check dir { w1 with fs := fs }).2 = some k) ∧
      (∀ h, (ConfigLoad check dir { w1 with fs := fs }).2 = some h → h = k) := by
  have hset : searchMap (ConfigWrite dir k w).viper.override "hotkey" = some (Value.str k) :=
    searchMap_set_str _ _ _
  have hset1 : searchMap w1.viper.override "hotkey" = some (Value.str k) := by
    rw [afterLoads_override check dir later _ w1 hrun]
    exact hset
  refine ⟨?_, configLoad_of_override check dir k { w1 with fs := fs } hset1⟩
  unfold Viper.GetString
  rw [find_of_override _ "hotkey" (Value.str k) hset]
  rfl

/-- C10 at `k = "F9"`: the write fails, a first load finds the file {"hotkey":"F8"}, and
a second load of that file still returns "F9". -/
theorem configWrite_override_persists_witness :
    (ConfigWrite "/home/user/nyrna" "F9" (freshWorld unwritableFS)).viper.GetString "hotkey" =
        "F9" ∧
      (ConfigLoad Check "/home/user/nyrna"
        { (ConfigLoad Check "/home/user/nyrna"
            { ConfigWrite "/home/user/nyrna" "F9" (freshWorld unwritableFS) with
              fs := singleFileFS "/home/user/nyrna/nyrna_config.json"
                (FileState.object [("hotkey", Value.str "F8")]) }).1 with
          fs := singleFileFS "/home/user/nyrna/nyrna_config.json"
            (FileState.object [("hotkey", Value.str "F8")]) }).2 = some "F9" :=
  have h := configWrite_override_persists Check "/home/user/nyrna" "F9"
    (freshWorld unwritableFS)
    (ConfigLoad Check "/home/user/nyrna"
      { ConfigWrite "/home/user/nyrna" "F9" (freshWorld unwritableFS) with
        fs := singleFileFS "/home/user/nyrna/nyrna_config.json"
          (FileState.object [("hotkey", Value.str "F8")]) }).1
    [singleFileFS "/home/user/nyrna/nyrna_config.json"
      (FileState.object [("hotkey", Value.str "F8")])]
    (singleFileFS "/home/user/nyrna/nyrna_config.json"
      (FileState.object [("hotkey", Value.str "F8")]))
    (by rfl)
  ⟨h.1, h.2.1 (by decide)⟩

/-! ## The claims on `notify.go` -/

/-- C5: each of the three operations logs the error of the dispatch, once, when the
dispatch returns one, and logs nothing when it returns none; either way it dispatches
once (no retry), hands nothing to the fatal handler `Check`, and returns to its caller
(the functions have no result, so no error is returned). -/
theorem notify_logs_dispatch_error (notify : String → String → String → Option GoError)
    (name : String) (hotkeyErr : Option GoError) :
    (loggedLines (NotifySuspend notify name) =
        ((notify "Suspended" (name ++ " was suspended.") "icons/nyrna.png").map
          GoError.text).toList ∧
      (dispatched (NotifySuspend notify name)).length = 1 ∧
      checkedErrors (NotifySuspend notify name) = []) ∧
    (loggedLines (NotifyResume notify name) =
        ((notify "Resumed" (name ++ " was resumed.") "icons/nyrna.png").map
          GoError.text).toList ∧
      (dispatched (NotifyResume notify name)).length = 1 ∧
      checkedErrors (NotifyResume notify name) = []) ∧
    (loggedLines (NotifyHotkeyFailure notify hotkeyErr) =
        ((notify "Issue" (Operand.err hotkeyErr).verbV "icons/nyrna.png").map
          GoError.text).toList ∧
      (dispatched (NotifyHotkeyFailure notify hotkeyErr)).length = 1 ∧
      checkedErrors (NotifyHotkeyFailure notify hotkeyErr) = []) := by
  have h1 := sprintf_suspended name
  have h2 := sprintf_resumed name
  have h3 := sprintf_error hotkeyErr
  unfold NotifySuspend NotifyResume NotifyHotkeyFailure
  simp only [h1, h2, h3]
  refine ⟨?_, ?_, ?_⟩
  · cases notify "Suspended" (name ++ " was suspended.") "icons/nyrna.png" <;>
      exact ⟨rfl, rfl, rfl⟩
  · cases notify "Resumed" (name ++ " was resumed.") "icons/nyrna.png" <;>
      exact ⟨rfl, rfl, rfl⟩
  · cases notify "Issue" (Operand.err hotkeyErr).verbV "icons/nyrna.png" <;>
      exact ⟨rfl, rfl, rfl⟩

/-- C6: `NotifySuspend(name)` dispatches exactly one notification, with the title
"Suspended", the body `name` followed by " was suspended." and the icon
"icons/nyrna.png"; for "App" the body is "App was suspended.". -/
theorem notifySuspend_dispatch (notify : String → String → String → Option GoError)
    (name : String) :
    dispatched (NotifySuspend notify name) =
        [("Suspended", name ++ " was suspended.", "icons/nyrna.png")] ∧
      dispatched (NotifySuspend notify "App") =
        [("Suspended", "App was suspended.", "icons/nyrna.png")] := by
  have h : ∀ n : String, dispatched (NotifySuspend notify n) =
      [("Suspended", n ++ " was suspended.", "icons/nyrna.png")] := by
    intro n
    unfold NotifySuspend
    simp only [sprintf_suspended]
    cases notify "Suspended" (n ++ " was suspended.") "icons/nyrna.png" <;> rfl
  refine ⟨h name, ?_⟩
  rw [h "App"]
  decide

/-- C7: `NotifyResume(name)` dispatches exactly one notification, with the title
"Resumed", the body `name` followed by " was resumed." and the icon "icons/nyrna.png",
the icon `NotifySuspend` uses; for "App" the body is "App was resumed.". -/
theorem notifyResume_dispatch (notify : String → String → String → Option GoError)
    (name : String) :
    dispatched (NotifyResume notify name) =
        [("Resumed", name ++ " was resumed.", "icons/nyrna.png")] ∧
      dispatched (NotifyResume notify "App") =
        [("Resumed", "App was resumed.", "icons/nyrna.png")] ∧
      (dispatched (NotifyResume notify name)).map (fun n => n.2.2) =
        (dispatched (NotifySuspend notify name)).map (fun n => n.2.2) := by
  have h : ∀ n : String, dispatched (NotifyResume notify n) =
      [("Resumed", n ++ " was resumed.", "icons/nyrna.png")] := by
    intro n
    unfold NotifyResume
    simp only [sprintf_resumed]
    cases notify "Resumed" (n ++ " was resumed.") "icons/nyrna.png" <;> rfl
  have hs : dispatched (NotifySuspend notify name) =
      [("Suspended", name ++ " was suspended.", "icons/nyrna.png")] := by
    unfold NotifySuspend
    simp only [sprintf_suspended]
    cases notify "Suspended" (name ++ " was suspended.") "icons/nyrna.png" <;> rfl
  refine ⟨h name, ?_, ?_⟩
  · rw [h "App"]
    decide
  · rw [h name, hs]
    rfl

/-- C8: for a non-nil error `cause`, `NotifyHotkeyFailure(cause)` dispatches exactly one
notification, with the title "Issue", the body `cause.Error()` with nothing added, and
the icon "icons/nyrna.png". -/
theorem notifyHotkeyFailure_dispatch (notify : String → String → String → Option GoError)
    (cause : GoError) :
    dispatched (NotifyHotkeyFailure notify (some cause)) =
      [("Issue", cause.text, "icons/nyrna.png")] := by
  unfold NotifyHotkeyFailure
  simp only [sprintf_error, Operand.verbV]
  cases notify "Issue" cause.text "icons/nyrna.png" <;> rfl

end Nyrna
